import Mathlib

/-!
Shallow embedding of the fixed-block memory pool allocator in
`test_projects/complex_c_project/utils/memory_pool.c`.

Blocks live at fixed addresses inside one contiguous arena:
block `i` has its header at `memory_area + i * (sizeof(MemoryBlock) + block_size)`
and its data region immediately after the header.  Because the `next` pointers
of blocks can only ever hold either `NULL` or the address of a block header of
the same pool (they are assigned only from `pool->first_block`,
`pool->free_list`, another block's `next`, or `NULL`), we represent a block
pointer as a block index (`Nat`) and a `MemoryBlock*` value as `Option Nat`
(`none` = `NULL`).  Machine addresses handed across the API (`void*` data
pointers) are represented as `Nat` addresses, with `0` playing the role of
`NULL`.

The C `while` loops walk `next` chains that, in corrupted states, may be
cyclic, in which case the loop never terminates.  We model each walk with
explicit fuel `total_blocks + 1`: an acyclic chain of blocks of the pool has
length at most `total_blocks`, so exhausting the fuel means a block repeated,
i.e. the C loop diverges.  A result of `none` at the outer `Option` layer of
an operation therefore means "the C code does not terminate here"; all states
reached through the public API keep the chains acyclic and never hit it.
-/

set_option autoImplicit false

/-- Value of `sizeof(MemoryBlock)` on an LP64 platform:
`next` (8) + `size` (8) + `is_allocated` (4 + 4 padding) + `data` (8). -/
def headerSize : Nat := 32

/-- Address returned by `malloc` for the arena, modelled as a fixed
nonzero value (its concrete value is never observable through the API). -/
def arenaBase : Nat := 1024

/-- The `ALIGN_SIZE` macro with `MEMORY_ALIGNMENT 8`:
`(size + 7) & ~7`, i.e. round up to a multiple of 8. -/
def alignSize (size : Nat) : Nat := ((size + 7) / 8) * 8

/-- The C `MemoryPoolError` enum. -/
inductive MemoryPoolError where
  | MEMPOOL_SUCCESS
  | MEMPOOL_INVALID_PARAM
  | MEMPOOL_OUT_OF_MEMORY
  | MEMPOOL_CORRUPTED
  | MEMPOOL_ALREADY_INIT
deriving DecidableEq, Repr

export MemoryPoolError (MEMPOOL_SUCCESS MEMPOOL_INVALID_PARAM MEMPOOL_OUT_OF_MEMORY
  MEMPOOL_CORRUPTED MEMPOOL_ALREADY_INIT)

/-- The `MemoryPool` struct together with the per-block mutable fields of the
`MemoryBlock` headers living in its arena.  `nextF i`, `sizeF i`,
`is_allocated i` are the `next`, `size` and `is_allocated` fields of the
header of block `i`; a block's `data` field is determined by its address and
is modelled by `dataAddr` below. -/
structure PoolState where
  first_block : Option Nat
  free_list : Option Nat
  block_size : Nat
  total_blocks : Nat
  used_blocks : Nat
  memory_area : Nat
  memory_size : Nat
  nextF : Nat → Option Nat
  sizeF : Nat → Nat
  is_allocated : Nat → Bool

/-- Distance between consecutive block headers:
`sizeof(MemoryBlock) + aligned_block_size`. -/
def stride (s : PoolState) : Nat := headerSize + s.block_size

/-- Address of the header of block `i`. -/
def blockAddr (s : PoolState) (i : Nat) : Nat := s.memory_area + i * stride s

/-- The `data` field of block `i`: `(char*)block + sizeof(MemoryBlock)`. -/
def dataAddr (s : PoolState) (i : Nat) : Nat := blockAddr s i + headerSize

/-- Recover the block index from a header address, if the address is the
address of one of the pool's block headers. -/
def addrToBlock (s : PoolState) (hdr : Nat) : Option Nat :=
  if s.memory_area ≤ hdr ∧ (hdr - s.memory_area) % stride s = 0 ∧
      (hdr - s.memory_area) / stride s < s.total_blocks
  then some ((hdr - s.memory_area) / stride s) else none

/-- Walk a `next` chain from `start`, collecting the visited blocks in order.
`none` means the walk does not reach `NULL` within `fuel` steps. -/
def chain (f : Nat → Option Nat) : Nat → Option Nat → Option (List Nat)
  | _, none => some []
  | 0, some _ => none
  | fuel + 1, some i => (chain f fuel (f i)).map (fun L => i :: L)

/-- The chain walk every loop of the pool uses: fuel `total_blocks + 1`. -/
def chainOf (s : PoolState) (start : Option Nat) : Option (List Nat) :=
  chain s.nextF (s.total_blocks + 1) start

/-- One iteration of the best-fit loop body in `find_free_block`:
`if (current->size >= required_size && !current->is_allocated)` then update
`best_fit` when `!best_fit || current->size < best_fit->size`. -/
def ffbStep (s : PoolState) (required : Nat) (best : Option Nat) (c : Nat) : Option Nat :=
  if required ≤ s.sizeF c ∧ s.is_allocated c = false then
    match best with
    | none => some c
    | some b => if s.sizeF c < s.sizeF b then some c else some b
  else best

/-- The static helper `find_free_block`: scan the whole free list (the loop
has no early exit) tracking the best fit.  The C code also tracks
`best_fit_prev`, which is never used; we omit it.  Outer `none` = the scan
does not terminate. -/
def find_free_block (s : PoolState) (required : Nat) : Option (Option Nat) :=
  (chainOf s s.free_list).map (fun L => L.foldl (ffbStep s required) none)

/-- The unlink scan in `memory_pool_alloc`:
`while (current && current->next != block) current = current->next;`.
Returns `some (some c)` when it stops at `c` with `c->next == block`,
`some none` when it hits `NULL`, `none` when it does not terminate. -/
def unlinkScan (f : Nat → Option Nat) (b : Nat) : Nat → Option Nat → Option (Option Nat)
  | _, none => some none
  | 0, some _ => none
  | fuel + 1, some c => if f c = some b then some (some c) else unlinkScan f b fuel (f c)

/-- Loop body of `memory_pool_create`: `init_memory_block` (sets `next := NULL`,
`size`, `is_allocated := 0`; `data` is implicit in the address map), then
`block->next = pool->first_block; pool->first_block = block;` followed by
`block->next = pool->free_list; pool->free_list = block;` — the same `next`
field is assigned twice, so the first-block push survives only in
`first_block` itself. -/
def addBlock (aligned : Nat) (s : PoolState) (i : Nat) : PoolState :=
  let s1 : PoolState :=
    { s with nextF := Function.update s.nextF i none,
             sizeF := Function.update s.sizeF i aligned,
             is_allocated := Function.update s.is_allocated i false }
  let s2 : PoolState :=
    { s1 with nextF := Function.update s1.nextF i s1.first_block,
              first_block := some i }
  { s2 with nextF := Function.update s2.nextF i s2.free_list,
            free_list := some i }

/-- The `for (i = 0; i < num_blocks; i++)` loop of `memory_pool_create`,
processing blocks `0, 1, ..., m - 1` in order. -/
def createLoop (aligned : Nat) : Nat → PoolState → PoolState
  | 0, s => s
  | m + 1, s => addBlock aligned (createLoop aligned m s) m

/-- `memory_pool_create`.  The two `malloc` calls are modelled as always
succeeding (the claims under verification are conditioned on the arena
reservation succeeding); a `none` result corresponds to the `NULL` returns
for zero-sized inputs. -/
def memory_pool_create (block_size num_blocks : Nat) : Option PoolState :=
  if block_size = 0 ∨ num_blocks = 0 then none
  else
    let aligned := alignSize block_size
    let s0 : PoolState :=
      { first_block := none, free_list := none, block_size := aligned,
        total_blocks := num_blocks, used_blocks := 0,
        memory_area := arenaBase,
        memory_size := num_blocks * (headerSize + aligned),
        nextF := fun _ => none, sizeF := fun _ => 0,
        is_allocated := fun _ => false }
    some (createLoop aligned num_blocks s0)

/-- `memory_pool_destroy`.  On success the pool record and arena are released:
the resulting pool handle is `none`. -/
def memory_pool_destroy : Option PoolState → MemoryPoolError × Option PoolState
  | none => (MEMPOOL_INVALID_PARAM, none)
  | some s =>
    if 0 < s.used_blocks then (MEMPOOL_CORRUPTED, some s)
    else (MEMPOOL_SUCCESS, none)

/-- `memory_pool_alloc` on a non-null pool.  Returns the data pointer
(`none` = `NULL`) and the state after the call; outer `none` = one of the
internal scans does not terminate.  Mirrors the C order: reject bad sizes,
best-fit search, set `is_allocated`, increment `used_blocks`, unlink from the
free list (head case or scan-for-previous case), finally `block->next = NULL`
and return `block->data`. -/
def memory_pool_alloc (s : PoolState) (size : Nat) : Option (Option Nat × PoolState) :=
  if size = 0 ∨ s.block_size < size then some (none, s)
  else
    match find_free_block s size with
    | none => none
    | some none => some (none, s)
    | some (some b) =>
      let s1 : PoolState :=
        { s with is_allocated := Function.update s.is_allocated b true,
                 used_blocks := s.used_blocks + 1 }
      let s2opt : Option PoolState :=
        if s1.free_list = some b then
          some { s1 with free_list := s1.nextF b }
        else
          match unlinkScan s1.nextF b (s1.total_blocks + 1) s1.free_list with
          | none => none
          | some none => some s1
          | some (some c) =>
            some { s1 with nextF := Function.update s1.nextF c (s1.nextF b) }
      s2opt.map (fun s2 =>
        (some (dataAddr s b), { s2 with nextF := Function.update s2.nextF b none }))

/-- The mutation performed by the success path of `memory_pool_free` on
block `b`: clear `is_allocated`, decrement `used_blocks`, push the block to
the front of the free list (`block->next = pool->free_list;
pool->free_list = block;`). -/
def freeState (s : PoolState) (b : Nat) : PoolState :=
  { s with is_allocated := Function.update s.is_allocated b false,
           used_blocks := s.used_blocks - 1,
           nextF := Function.update s.nextF b s.free_list,
           free_list := some b }

/-- `memory_pool_free`.  `ptr = 0` models a `NULL` data pointer.  The header
is recovered by `(char*)ptr - sizeof(MemoryBlock)` and bounds-checked against
the arena.  An in-range header address that is not the address of one of the
pool's block headers makes the C code reinterpret arbitrary arena bytes as a
`MemoryBlock`; that case is outside the model and yields `none`. -/
def memory_pool_free : Option PoolState → Nat → Option (MemoryPoolError × Option PoolState)
  | none, _ => some (MEMPOOL_INVALID_PARAM, none)
  | some s, ptr =>
    if ptr = 0 then some (MEMPOOL_INVALID_PARAM, some s)
    else
      let hdr := ptr - headerSize
      if hdr < s.memory_area ∨ s.memory_area + s.memory_size ≤ hdr then
        some (MEMPOOL_INVALID_PARAM, some s)
      else
        match addrToBlock s hdr with
        | none => none
        | some b =>
          if s.is_allocated b = false then some (MEMPOOL_CORRUPTED, some s)
          else some (MEMPOOL_SUCCESS, some (freeState s b))

/-- `memory_pool_get_usage`: `pool ? pool->used_blocks : 0`. -/
def memory_pool_get_usage : Option PoolState → Nat
  | none => 0
  | some s => s.used_blocks

/-- `memory_pool_get_capacity`: `pool ? pool->total_blocks : 0`. -/
def memory_pool_get_capacity : Option PoolState → Nat
  | none => 0
  | some s => s.total_blocks

/-- `memory_pool_is_full`. -/
def memory_pool_is_full : Option PoolState → Bool
  | none => true
  | some s => s.used_blocks = s.total_blocks

/-- `memory_pool_is_empty`. -/
def memory_pool_is_empty : Option PoolState → Bool
  | none => true
  | some s => s.used_blocks = 0

/-- The bounds check inside the `memory_pool_validate` loop:
`memory_area <= (char*)current < memory_area + memory_size`; the lower bound
always holds for a block of the pool, the upper bound is
`i * stride < memory_size`. -/
def blockInBounds (s : PoolState) (i : Nat) : Bool :=
  i * stride s < s.memory_size

/-- The walk of `memory_pool_validate`: count blocks and allocated blocks
along the `first_block` chain, returning `MEMPOOL_CORRUPTED` as soon as a
block header is out of the arena bounds, and comparing the final counts
against `total_blocks` / `used_blocks`.  `none` = the walk does not
terminate. -/
def validateWalk (s : PoolState) :
    Nat → Option Nat → Nat → Nat → Option MemoryPoolError
  | _, none, cb, ca =>
    some (if cb = s.total_blocks ∧ ca = s.used_blocks
          then MEMPOOL_SUCCESS else MEMPOOL_CORRUPTED)
  | 0, some _, _, _ => none
  | fuel + 1, some i, cb, ca =>
    let cb' := cb + 1
    let ca' := if s.is_allocated i then ca + 1 else ca
    if blockInBounds s i then validateWalk s fuel (s.nextF i) cb' ca'
    else some MEMPOOL_CORRUPTED

/-- `memory_pool_validate`: read-only consistency scan over `first_block`. -/
def memory_pool_validate : Option PoolState → Option MemoryPoolError
  | none => some MEMPOOL_INVALID_PARAM
  | some s => validateWalk s (s.total_blocks + 1) s.first_block 0 0

/-- Walking the `next` chain from `start` visits exactly the blocks of `L` in
order and then reaches `NULL`.  This is the fuel-free counterpart of `chain`,
used for reasoning. -/
inductive isChain (f : Nat → Option Nat) : Option Nat → List Nat → Prop
  | nil : isChain f none []
  | cons {x : Nat} {L : List Nat} : isChain f (f x) L → isChain f (some x) (x :: L)

/-- Number of blocks of the pool whose `is_allocated` flag is set. -/
def usedCount (s : PoolState) : Nat :=
  ((Finset.range s.total_blocks).filter (fun i => s.is_allocated i = true)).card

/-- The reachable-state invariant of the pool that survives the aliasing of
the `next` field: the free list is a terminating, duplicate-free chain
holding exactly the unallocated blocks, and `used_blocks` counts the
allocated blocks.  (The `first_block` chain enjoys no such invariant: `alloc`
truncates it, see the C1 theorem.) -/
def GoodPool (s : PoolState) : Prop :=
  ∃ FL : List Nat,
    isChain s.nextF s.free_list FL ∧ FL.Nodup ∧
    (∀ i ∈ FL, i < s.total_blocks ∧ s.is_allocated i = false) ∧
    (∀ i, i < s.total_blocks → s.is_allocated i = false → i ∈ FL) ∧
    s.used_blocks = usedCount s

/-- Geometric well-formedness of the arena, as established by `create`:
the arena lies above the null page (its base is at least one header size,
true of any successful `malloc`), and `memory_size` is exactly
`total_blocks` strides. -/
def WF (s : PoolState) : Prop :=
  headerSize ≤ s.memory_area ∧ s.memory_size = s.total_blocks * stride s

/-- The three pool-consistency properties asserted by claim C9. -/
def ClaimInv (s : PoolState) : Prop :=
  s.used_blocks = usedCount s ∧ s.used_blocks ≤ s.total_blocks ∧
  ∀ i j, i < s.total_blocks → j < s.total_blocks →
    s.is_allocated i = true → s.is_allocated j = true → i ≠ j →
    dataAddr s i ≠ dataAddr s j

/-- A block satisfies the search condition of the `find_free_block` loop:
`current->size >= required_size && !current->is_allocated`. -/
def Qualifies (s : PoolState) (required c : Nat) : Prop :=
  required ≤ s.sizeF c ∧ s.is_allocated c = false

/-- Best-fit characterization of the loop of `find_free_block` over the scan
list `L`: `none` when no block qualifies, otherwise the qualifying block of
smallest `size`, the earliest such block in scan order on ties. -/
def IsBestFit (s : PoolState) (required : Nat) (L : List Nat) : Option Nat → Prop
  | none => ∀ c ∈ L, ¬ Qualifies s required c
  | some b => ∃ A B, L = A ++ b :: B ∧ Qualifies s required b ∧
      (∀ c ∈ L, Qualifies s required c → s.sizeF b ≤ s.sizeF c) ∧
      (∀ c ∈ A, Qualifies s required c → s.sizeF b < s.sizeF c)

/-- Best-fit policy exactly as the spec words it (claim C7): among all
free-list blocks with capacity at least the request, the one with smallest
capacity, and on ties the first such block in free-list scan order. -/
def SpecBestFit (s : PoolState) (required : Nat) (L : List Nat) : Option Nat → Prop
  | none => ∀ c ∈ L, ¬ required ≤ s.sizeF c
  | some b => ∃ A B, L = A ++ b :: B ∧ required ≤ s.sizeF b ∧
      (∀ c ∈ L, required ≤ s.sizeF c → s.sizeF b ≤ s.sizeF c) ∧
      (∀ c ∈ A, required ≤ s.sizeF c → s.sizeF b < s.sizeF c)

/-- State of a pool freshly created with `n` blocks after `j` allocations
that each took the head of the free list: blocks `n - j, ..., n - 1` are
allocated, the free list runs `n - 1 - j, n - 2 - j, ..., 0`. -/
def FreshState (n j : Nat) (s : PoolState) : Prop :=
  s.total_blocks = n ∧ s.used_blocks = j ∧ j ≤ n ∧
  s.free_list = (if j = n then none else some (n - 1 - j)) ∧
  (∀ i, i < n - j → s.nextF i = if i = 0 then none else some (i - 1)) ∧
  (∀ i, i < n → s.sizeF i = s.block_size) ∧
  (∀ i, i < n → (s.is_allocated i = true ↔ n - j ≤ i))

/-- Perform `m` allocations of `size` in sequence, requiring every one of
them to succeed; collects the returned data pointers in call order. -/
def allocSeq (size : Nat) : Nat → PoolState → Option (List Nat × PoolState)
  | 0, s => some ([], s)
  | m + 1, s =>
    match memory_pool_alloc s size with
    | some (some p, s') => (allocSeq size m s').map (fun r => (p :: r.1, r.2))
    | _ => none

/-- Free every pointer of the list in order, requiring every call to return
`MEMPOOL_SUCCESS`. -/
def freeSeq : PoolState → List Nat → Option PoolState
  | s, [] => some s
  | s, p :: ps =>
    match memory_pool_free (some s) p with
    | some (MEMPOOL_SUCCESS, some s') => freeSeq s' ps
    | _ => none

/-- Indices of the currently allocated blocks, in arena order. -/
def allocIdx (s : PoolState) : List Nat :=
  (List.range s.total_blocks).filter (fun i => s.is_allocated i)

/-- Concrete one-block pool with its single block allocated (the state
reached by `create(8, 1)` followed by one `alloc`), used to instantiate
theorems at a concrete input. -/
def cstate1 : PoolState :=
  { first_block := some 0, free_list := none, block_size := 8, total_blocks := 1,
    used_blocks := 1, memory_area := 1024, memory_size := 40,
    nextF := fun _ => none, sizeF := fun _ => 8,
    is_allocated := fun i => i == 0 }

/-- Concrete three-block pool with heterogeneous block capacities
(24, 8, 16 in scan order 2, 1, 0), exercising the best-fit tie-break. -/
def cstBF : PoolState :=
  { first_block := some 2, free_list := some 2, block_size := 24, total_blocks := 3,
    used_blocks := 0, memory_area := 1024, memory_size := 168,
    nextF := fun i => if i = 2 then some 1 else if i = 1 then some 0 else none,
    sizeF := fun i => if i = 2 then 24 else if i = 1 then 8 else 16,
    is_allocated := fun _ => false }

theorem chain_sound {f : Nat → Option Nat} :
    ∀ {fuel : Nat} {st : Option Nat} {L : List Nat},
      chain f fuel st = some L → isChain f st L := by
  intro fuel
  induction fuel with
  | zero =>
    intro st L h
    cases st with
    | none => cases h; exact isChain.nil
    | some i => simp [chain] at h
  | succ fuel ih =>
    intro st L h
    cases st with
    | none => cases h; exact isChain.nil
    | some i =>
      simp only [chain] at h
      cases hc : chain f fuel (f i) with
      | none => rw [hc] at h; cases h
      | some L' =>
        rw [hc] at h
        simp only [Option.map_some'] at h
        cases h
        exact isChain.cons (ih hc)

theorem isChain_chain {f : Nat → Option Nat} {st : Option Nat} {L : List Nat}
    (h : isChain f st L) :
    ∀ {fuel : Nat}, L.length ≤ fuel → chain f fuel st = some L := by
  induction h with
  | nil =>
    intro fuel _
    cases fuel <;> rfl
  | @cons x L' h ih =>
    intro fuel hf
    cases fuel with
    | zero => simp at hf
    | succ fuel =>
      simp only [List.length_cons, Nat.succ_le_succ_iff] at hf
      simp [chain, ih hf]

theorem isChain_update {f : Nat → Option Nat} {st : Option Nat} {L : List Nat}
    (h : isChain f st L) {x : Nat} {v : Option Nat} (hx : x ∉ L) :
    isChain (Function.update f x v) st L := by
  induction h with
  | nil => exact isChain.nil
  | @cons y L' h ih =>
    have hyx : y ≠ x := fun he => hx (he ▸ List.mem_cons_self y L')
    have hL' : x ∉ L' := fun hm => hx (List.mem_cons_of_mem _ hm)
    refine isChain.cons ?_
    rw [Function.update_noteq hyx]
    exact ih hL'

theorem isChain_cons_inv {f : Nat → Option Nat} {x : Nat} {L : List Nat}
    (h : isChain f (some x) L) :
    ∃ L', L = x :: L' ∧ isChain f (f x) L' := by
  cases h with
  | cons h => exact ⟨_, rfl, h⟩

theorem length_le_of_nodup_lt {L : List Nat} {n : Nat}
    (hd : L.Nodup) (hb : ∀ i ∈ L, i < n) : L.length ≤ n := by
  calc L.length = L.toFinset.card := (List.toFinset_card_of_nodup hd).symm
    _ ≤ (Finset.range n).card := by
        apply Finset.card_le_card
        intro x hx
        rw [List.mem_toFinset] at hx
        exact Finset.mem_range.mpr (hb x hx)
    _ = n := Finset.card_range n

theorem card_filter_update_true {n b : Nat} {f : Nat → Bool}
    (hb : b < n) (hf : f b = false) :
    ((Finset.range n).filter (fun i => Function.update f b true i = true)).card
      = ((Finset.range n).filter (fun i => f i = true)).card + 1 := by
  have hins : (Finset.range n).filter (fun i => Function.update f b true i = true)
      = insert b ((Finset.range n).filter (fun i => f i = true)) := by
    ext x
    simp only [Finset.mem_filter, Finset.mem_insert, Finset.mem_range,
      Function.update_apply]
    by_cases hxb : x = b
    · subst hxb; simp [hb]
    · simp [hxb]
  rw [hins, Finset.card_insert_of_not_mem]
  simp [Finset.mem_filter, hf]

theorem card_filter_update_false {n b : Nat} {f : Nat → Bool}
    (hb : b < n) (hf : f b = true) :
    ((Finset.range n).filter (fun i => f i = true)).card
      = ((Finset.range n).filter (fun i => Function.update f b false i = true)).card + 1 := by
  have hins : (Finset.range n).filter (fun i => f i = true)
      = insert b ((Finset.range n).filter (fun i => Function.update f b false i = true)) := by
    ext x
    simp only [Finset.mem_filter, Finset.mem_insert, Finset.mem_range,
      Function.update_apply]
    by_cases hxb : x = b
    · subst hxb; simp [hb, hf]
    · simp [hxb]
  rw [hins, Finset.card_insert_of_not_mem]
  simp [Finset.mem_filter, Function.update_same]

theorem usedCount_le (s : PoolState) : usedCount s ≤ s.total_blocks := by
  calc usedCount s ≤ (Finset.range s.total_blocks).card := Finset.card_filter_le _ _
    _ = s.total_blocks := Finset.card_range _

theorem dataAddr_injOn (s : PoolState) {i j : Nat}
    (hij : i ≠ j) : dataAddr s i ≠ dataAddr s j := by
  unfold dataAddr blockAddr stride headerSize
  intro h
  have : i * (32 + s.block_size) = j * (32 + s.block_size) := by omega
  have hstride : 0 < 32 + s.block_size := by omega
  exact hij (Nat.eq_of_mul_eq_mul_right hstride this)

theorem GoodPool_ClaimInv {s : PoolState} (h : GoodPool s) : ClaimInv s := by
  obtain ⟨FL, _, _, _, _, hcnt⟩ := h
  refine ⟨hcnt, ?_, ?_⟩
  · rw [hcnt]; exact usedCount_le s
  · intro i j _ _ _ _ hij
    exact dataAddr_injOn s hij

theorem addBlock_nextF (a : Nat) (t : PoolState) (k : Nat) :
    (addBlock a t k).nextF = Function.update t.nextF k t.free_list := by
  simp [addBlock, Function.update_idem]

theorem addBlock_sizeF (a : Nat) (t : PoolState) (k : Nat) :
    (addBlock a t k).sizeF = Function.update t.sizeF k a := rfl

theorem addBlock_alloc (a : Nat) (t : PoolState) (k : Nat) :
    (addBlock a t k).is_allocated = Function.update t.is_allocated k false := rfl

theorem createLoop_scalars (a : Nat) : ∀ (m : Nat) (s0 : PoolState),
    (createLoop a m s0).block_size = s0.block_size ∧
    (createLoop a m s0).total_blocks = s0.total_blocks ∧
    (createLoop a m s0).used_blocks = s0.used_blocks ∧
    (createLoop a m s0).memory_area = s0.memory_area ∧
    (createLoop a m s0).memory_size = s0.memory_size := by
  intro m
  induction m with
  | zero => intro s0; exact ⟨rfl, rfl, rfl, rfl, rfl⟩
  | succ m ih =>
    intro s0
    obtain ⟨h1, h2, h3, h4, h5⟩ := ih s0
    exact ⟨h1, h2, h3, h4, h5⟩

theorem createLoop_free (a m : Nat) (s0 : PoolState) :
    (createLoop a (m + 1) s0).free_list = some m ∧
    (createLoop a (m + 1) s0).first_block = some m :=
  ⟨rfl, rfl⟩

theorem createLoop_nextF (a : Nat) : ∀ (m : Nat) (s0 : PoolState), s0.free_list = none →
    ∀ i, (createLoop a m s0).nextF i =
      if i < m then (if i = 0 then none else some (i - 1)) else s0.nextF i := by
  intro m
  induction m with
  | zero => intro s0 _ i; simp [createLoop]
  | succ m ih =>
    intro s0 h0 i
    have hfl : (createLoop a m s0).free_list = if m = 0 then none else some (m - 1) := by
      cases m with
      | zero => simpa [createLoop] using h0
      | succ k => simp [(createLoop_free a k s0).1]
    rw [show createLoop a (m + 1) s0 = addBlock a (createLoop a m s0) m from rfl,
      addBlock_nextF, Function.update_apply]
    by_cases him : i = m
    · subst him
      simp only [if_pos rfl, hfl]
      have : i < i + 1 := Nat.lt_succ_self i
      rw [if_pos this]
      by_cases hz : i = 0 <;> simp [hz]
    · rw [if_neg him, ih s0 h0 i]
      by_cases hlt : i < m
      · rw [if_pos hlt, if_pos (Nat.lt_succ_of_lt hlt)]
      · rw [if_neg hlt, if_neg (by omega)]

theorem createLoop_alloc (a : Nat) : ∀ (m : Nat) (s0 : PoolState) (i : Nat),
    (createLoop a m s0).is_allocated i = if i < m then false else s0.is_allocated i := by
  intro m
  induction m with
  | zero => intro s0 i; simp [createLoop]
  | succ m ih =>
    intro s0 i
    rw [show createLoop a (m + 1) s0 = addBlock a (createLoop a m s0) m from rfl,
      addBlock_alloc, Function.update_apply]
    by_cases him : i = m
    · subst him; simp
    · rw [if_neg him, ih s0 i]
      by_cases hlt : i < m
      · rw [if_pos hlt, if_pos (Nat.lt_succ_of_lt hlt)]
      · rw [if_neg hlt, if_neg (by omega)]

theorem createLoop_sizeF (a : Nat) : ∀ (m : Nat) (s0 : PoolState) (i : Nat),
    (createLoop a m s0).sizeF i = if i < m then a else s0.sizeF i := by
  intro m
  induction m with
  | zero => intro s0 i; simp [createLoop]
  | succ m ih =>
    intro s0 i
    rw [show createLoop a (m + 1) s0 = addBlock a (createLoop a m s0) m from rfl,
      addBlock_sizeF, Function.update_apply]
    by_cases him : i = m
    · subst him; simp
    · rw [if_neg him, ih s0 i]
      by_cases hlt : i < m
      · rw [if_pos hlt, if_pos (Nat.lt_succ_of_lt hlt)]
      · rw [if_neg hlt, if_neg (by omega)]

theorem isChain_revRange {f : Nat → Option Nat} :
    ∀ (m : Nat), (∀ i, i < m → f i = if i = 0 then none else some (i - 1)) →
    isChain f (if m = 0 then none else some (m - 1)) ((List.range m).reverse) := by
  intro m
  induction m with
  | zero => intro _; simpa using isChain.nil
  | succ m ih =>
    intro hf
    have hrev : (List.range (m + 1)).reverse = m :: (List.range m).reverse := by
      simp [List.range_succ]
    rw [if_neg (Nat.succ_ne_zero m), hrev]
    refine isChain.cons ?_
    simp only [Nat.add_sub_cancel]
    rw [hf m (Nat.lt_succ_self m)]
    exact ih (fun i hi => hf i (Nat.lt_succ_of_lt hi))

theorem create_spec {bs nb : Nat} {s : PoolState} (h : memory_pool_create bs nb = some s) :
    s.total_blocks = nb ∧ s.used_blocks = 0 ∧ s.block_size = alignSize bs ∧
    s.memory_area = arenaBase ∧ s.memory_size = nb * (headerSize + alignSize bs) ∧
    0 < nb ∧ 0 < bs ∧
    s.free_list = some (nb - 1) ∧ s.first_block = some (nb - 1) ∧
    (∀ i, i < nb → s.nextF i = if i = 0 then none else some (i - 1)) ∧
    (∀ i, i < nb → s.sizeF i = alignSize bs) ∧
    (∀ i, i < nb → s.is_allocated i = false) := by
  unfold memory_pool_create at h
  by_cases hg : bs = 0 ∨ nb = 0
  · rw [if_pos hg] at h; cases h
  · rw [if_neg hg] at h
    push_neg at hg
    injection h with h
    subst h
    obtain ⟨c1, c2, c3, c4, c5⟩ := createLoop_scalars (alignSize bs) nb
      { first_block := none, free_list := none, block_size := alignSize bs,
        total_blocks := nb, used_blocks := 0, memory_area := arenaBase,
        memory_size := nb * (headerSize + alignSize bs),
        nextF := fun _ => none, sizeF := fun _ => 0,
        is_allocated := fun _ => false }
    refine ⟨c2, c3, c1, c4, c5, Nat.pos_of_ne_zero hg.2, Nat.pos_of_ne_zero hg.1, ?_, ?_, ?_, ?_, ?_⟩
    · cases nb with
      | zero => exact absurd rfl hg.2
      | succ k => exact (createLoop_free _ k _).1
    · cases nb with
      | zero => exact absurd rfl hg.2
      | succ k => exact (createLoop_free _ k _).2
    · intro i hi
      rw [createLoop_nextF _ nb _ rfl i, if_pos hi]
    · intro i hi
      rw [createLoop_sizeF _ nb _ i, if_pos hi]
    · intro i hi
      rw [createLoop_alloc _ nb _ i, if_pos hi]

theorem validateWalk_spec {s : PoolState} {st : Option Nat} {L : List Nat}
    (hch : isChain s.nextF st L) :
    ∀ {fuel cb ca : Nat}, L.length ≤ fuel →
    (∀ i ∈ L, blockInBounds s i = true) →
    validateWalk s fuel st cb ca =
      some (if cb + L.length = s.total_blocks ∧
            ca + (L.filter (fun i => s.is_allocated i)).length = s.used_blocks
            then MEMPOOL_SUCCESS else MEMPOOL_CORRUPTED) := by
  induction hch with
  | nil =>
    intro fuel cb ca _ _
    cases fuel <;> simp [validateWalk]
  | @cons x L' h ih =>
    intro fuel cb ca hf hb
    cases fuel with
    | zero => simp at hf
    | succ fuel =>
      have hbx : blockInBounds s x = true := hb x (List.mem_cons_self _ _)
      simp only [validateWalk, hbx, if_true]
      rw [ih (by simpa using Nat.succ_le_succ_iff.mp (by simpa using hf))
        (fun i hi => hb i (List.mem_cons_of_mem _ hi))]
      have hiff : ((cb + 1) + L'.length = s.total_blocks ∧
          (if s.is_allocated x then ca + 1 else ca)
            + (L'.filter (fun i => s.is_allocated i)).length = s.used_blocks)
          ↔ (cb + (x :: L').length = s.total_blocks ∧
             ca + ((x :: L').filter (fun i => s.is_allocated i)).length = s.used_blocks) := by
        cases hal : s.is_allocated x <;> simp [List.filter_cons, hal] <;> omega
      exact congrArg some (if_congr hiff rfl rfl)

theorem create_GoodPool {bs nb : Nat} {s : PoolState}
    (h : memory_pool_create bs nb = some s) : GoodPool s ∧ WF s := by
  obtain ⟨ht, hu, hbsz, hma, hms, hnb, _, hfl, _, hnx, _, hal⟩ := create_spec h
  constructor
  · refine ⟨(List.range nb).reverse, ?_, ?_, ?_, ?_, ?_⟩
    · have := isChain_revRange (f := s.nextF) nb hnx
      rwa [if_neg (by omega), ← hfl] at this
    · simpa using List.nodup_range nb
    · intro i hi
      rw [List.mem_reverse, List.mem_range] at hi
      exact ⟨ht ▸ hi, hal i hi⟩
    · intro i hi _
      rw [List.mem_reverse, List.mem_range]
      exact ht ▸ hi
    · rw [hu]
      unfold usedCount
      rw [Finset.filter_eq_empty_iff.mpr, Finset.card_empty]
      intro i hi
      rw [Finset.mem_range, ht] at hi
      simp [hal i hi]
  · constructor
    · rw [hma]; norm_num [headerSize, arenaBase]
    · rw [hms, ht]
      unfold stride
      rw [hbsz]

theorem isChain_cons_start {f : Nat → Option Nat} {st : Option Nat} {x : Nat} {L : List Nat}
    (h : isChain f st (x :: L)) : st = some x ∧ isChain f (f x) L := by
  cases h with
  | cons h => exact ⟨rfl, h⟩

theorem ffbStep_not_qual {s : PoolState} {r c : Nat}
    (h : ¬ (r ≤ s.sizeF c ∧ s.is_allocated c = false)) (acc : Option Nat) :
    ffbStep s r acc c = acc := by
  unfold ffbStep; rw [if_neg h]

theorem ffbStep_qual_none {s : PoolState} {r c : Nat}
    (h : r ≤ s.sizeF c ∧ s.is_allocated c = false) :
    ffbStep s r none c = some c := by
  unfold ffbStep; rw [if_pos h]

theorem ffbStep_qual_some {s : PoolState} {r c b : Nat}
    (h : r ≤ s.sizeF c ∧ s.is_allocated c = false) :
    ffbStep s r (some b) c = if s.sizeF c < s.sizeF b then some c else some b := by
  unfold ffbStep; rw [if_pos h]

theorem ffbStep_bestfit {s : PoolState} {r : Nat} {P : List Nat} {acc : Option Nat}
    (h : IsBestFit s r P acc) (c : Nat) :
    IsBestFit s r (P ++ [c]) (ffbStep s r acc c) := by
  by_cases hq : Qualifies s r c
  · have hq' : r ≤ s.sizeF c ∧ s.is_allocated c = false := hq
    cases acc with
    | none =>
      rw [ffbStep_qual_none hq']
      refine ⟨P, [], rfl, hq, ?_, ?_⟩
      · intro x hx hxq
        rcases List.mem_append.mp hx with hx | hx
        · exact absurd hxq (h x hx)
        · rcases List.mem_singleton.mp hx with rfl; exact le_refl _
      · intro x hx hxq; exact absurd hxq (h x hx)
    | some b =>
      obtain ⟨A, B, hPd, hQb, hmin, hstrict⟩ := h
      rw [ffbStep_qual_some hq']
      by_cases hlt : s.sizeF c < s.sizeF b
      · rw [if_pos hlt]
        refine ⟨P, [], rfl, hq, ?_, ?_⟩
        · intro x hx hxq
          rcases List.mem_append.mp hx with hx | hx
          · exact le_of_lt (lt_of_lt_of_le hlt (hmin x hx hxq))
          · rcases List.mem_singleton.mp hx with rfl; exact le_refl _
        · intro x hx hxq
          exact lt_of_lt_of_le hlt (hmin x hx hxq)
      · rw [if_neg hlt]
        refine ⟨A, B ++ [c], by rw [hPd]; simp, hQb, ?_, hstrict⟩
        intro x hx hxq
        rcases List.mem_append.mp hx with hx | hx
        · exact hmin x hx hxq
        · rcases List.mem_singleton.mp hx with rfl; exact Nat.le_of_not_lt hlt
  · rw [ffbStep_not_qual hq acc]
    cases acc with
    | none =>
      intro x hx hxq
      rcases List.mem_append.mp hx with hx | hx
      · exact h x hx hxq
      · rcases List.mem_singleton.mp hx with rfl; exact hq hxq
    | some b =>
      obtain ⟨A, B, hPd, hQb, hmin, hstrict⟩ := h
      refine ⟨A, B ++ [c], by rw [hPd]; simp, hQb, ?_, hstrict⟩
      intro x hx hxq
      rcases List.mem_append.mp hx with hx | hx
      · exact hmin x hx hxq
      · rcases List.mem_singleton.mp hx with rfl; exact absurd hxq hq

theorem foldl_ffb_bestfit {s : PoolState} {r : Nat} :
    ∀ (L P : List Nat) (acc : Option Nat), IsBestFit s r P acc →
    IsBestFit s r (P ++ L) (L.foldl (ffbStep s r) acc) := by
  intro L
  induction L with
  | nil =>
    intro P acc h
    rw [List.foldl_nil, List.append_nil]
    exact h
  | cons c L' ih =>
    intro P acc h
    have h2 := ih (P ++ [c]) (ffbStep s r acc c) (ffbStep_bestfit h c)
    rw [List.foldl_cons]
    rwa [List.append_assoc, List.singleton_append] at h2

theorem find_free_block_bestfit {s : PoolState} {r : Nat} {FL : List Nat}
    (hch : chainOf s s.free_list = some FL) :
    find_free_block s r = some (FL.foldl (ffbStep s r) none) ∧
    IsBestFit s r FL (FL.foldl (ffbStep s r) none) := by
  constructor
  · unfold find_free_block; rw [hch]; rfl
  · have h0 : IsBestFit s r [] none := by
      intro x hx; exact absurd hx (List.not_mem_nil x)
    have := foldl_ffb_bestfit FL [] none h0
    rwa [List.nil_append] at this

theorem foldl_ffb_stay {s : PoolState} {r b : Nat} :
    ∀ {L : List Nat}, (∀ c ∈ L, ¬ s.sizeF c < s.sizeF b) →
    L.foldl (ffbStep s r) (some b) = some b := by
  intro L
  induction L with
  | nil => intro _; rfl
  | cons c L' ih =>
    intro h
    rw [List.foldl_cons]
    have hstep : ffbStep s r (some b) c = some b := by
      by_cases hq : r ≤ s.sizeF c ∧ s.is_allocated c = false
      · rw [ffbStep_qual_some hq, if_neg (h c (List.mem_cons_self _ _))]
      · rw [ffbStep_not_qual hq]
    rw [hstep]
    exact ih (fun x hx => h x (List.mem_cons_of_mem _ hx))

theorem unlinkScan_finds {f : Nat → Option Nat} {b : Nat} :
    ∀ (A : List Nat) {c : Nat} {B : List Nat} {st : Option Nat},
    isChain f st (A ++ c :: b :: B) → (A ++ c :: b :: B).Nodup →
    ∀ {fuel : Nat}, A.length < fuel → unlinkScan f b fuel st = some (some c) := by
  intro A
  induction A with
  | nil =>
    intro c B st hch hnd fuel hf
    rw [List.nil_append] at hch
    obtain ⟨rfl, hch'⟩ := isChain_cons_start hch
    obtain ⟨hfc, _⟩ := isChain_cons_start hch'
    cases fuel with
    | zero => omega
    | succ g =>
      simp only [unlinkScan]
      rw [if_pos hfc]
  | cons a A' ih =>
    intro c B st hch hnd fuel hf
    rw [List.cons_append] at hch hnd
    obtain ⟨rfl, hch'⟩ := isChain_cons_start hch
    have hnd' : (A' ++ c :: b :: B).Nodup := (List.nodup_cons.mp hnd).2
    have hfa_ne : f a ≠ some b := by
      cases hA' : A' with
      | nil =>
        rw [hA', List.nil_append] at hch'
        obtain ⟨heq, _⟩ := isChain_cons_start hch'
        rw [heq]
        intro hcon
        injection hcon with hcon
        rw [hA', List.nil_append] at hnd'
        have hcb : c ∉ b :: B := (List.nodup_cons.mp hnd').1
        exact hcb (hcon ▸ List.mem_cons_self b B)
      | cons x A'' =>
        rw [hA', List.cons_append] at hch'
        obtain ⟨heq, _⟩ := isChain_cons_start hch'
        rw [heq]
        intro hcon
        injection hcon with hcon
        rw [hA'] at hnd'
        have hnd2 : ((x :: A'') ++ c :: b :: B).Nodup := hnd'
        have hdisj := List.disjoint_of_nodup_append hnd2
        exact hdisj (List.mem_cons_self x A'') (by rw [hcon]; simp)
    cases fuel with
    | zero => simp at hf
    | succ g =>
      simp only [unlinkScan]
      rw [if_neg hfa_ne]
      exact ih hch' hnd' (by simp at hf; omega)

theorem isChain_unlink {f : Nat → Option Nat} {b : Nat} :
    ∀ (A : List Nat) {c : Nat} {B : List Nat} {st : Option Nat},
    isChain f st (A ++ c :: b :: B) → (A ++ c :: b :: B).Nodup →
    isChain (Function.update f c (f b)) st (A ++ c :: B) := by
  intro A
  induction A with
  | nil =>
    intro c B st hch hnd
    rw [List.nil_append] at hch hnd
    obtain ⟨rfl, hch'⟩ := isChain_cons_start hch
    obtain ⟨hfc, hch''⟩ := isChain_cons_start hch'
    rw [List.nil_append]
    refine isChain.cons ?_
    rw [Function.update_same]
    refine isChain_update hch'' ?_
    have hc_not := (List.nodup_cons.mp hnd).1
    intro hcB
    exact hc_not (List.mem_cons_of_mem _ hcB)
  | cons a A' ih =>
    intro c B st hch hnd
    rw [List.cons_append] at hch hnd
    obtain ⟨rfl, hch'⟩ := isChain_cons_start hch
    have hnd' : (A' ++ c :: b :: B).Nodup := (List.nodup_cons.mp hnd).2
    have hane : a ≠ c := by
      have ha := (List.nodup_cons.mp hnd).1
      intro he; subst he; exact ha (by simp)
    rw [List.cons_append]
    refine isChain.cons ?_
    rw [Function.update_noteq hane]
    exact ih hch' hnd'

theorem alloc_guard {s : PoolState} {sz : Nat} (h : sz = 0 ∨ s.block_size < sz) :
    memory_pool_alloc s sz = some (none, s) := by
  unfold memory_pool_alloc
  rw [if_pos h]

theorem alloc_nofree {s : PoolState} {sz : Nat}
    (hg : ¬ (sz = 0 ∨ s.block_size < sz))
    (hfind : find_free_block s sz = some none) :
    memory_pool_alloc s sz = some (none, s) := by
  unfold memory_pool_alloc
  rw [if_neg hg, hfind]

theorem alloc_head_state {s : PoolState} {sz b : Nat}
    (hg : ¬ (sz = 0 ∨ s.block_size < sz))
    (hfind : find_free_block s sz = some (some b))
    (hhead : s.free_list = some b) :
    memory_pool_alloc s sz = some (some (dataAddr s b),
      { s with is_allocated := Function.update s.is_allocated b true,
               used_blocks := s.used_blocks + 1,
               free_list := s.nextF b,
               nextF := Function.update s.nextF b none }) := by
  unfold memory_pool_alloc
  rw [if_neg hg, hfind]
  dsimp only
  rw [hhead, if_pos rfl]
  rfl

theorem alloc_mid_state {s : PoolState} {sz b c : Nat}
    (hg : ¬ (sz = 0 ∨ s.block_size < sz))
    (hfind : find_free_block s sz = some (some b))
    (hnothead : s.free_list ≠ some b)
    (hscan : unlinkScan s.nextF b (s.total_blocks + 1) s.free_list = some (some c)) :
    memory_pool_alloc s sz = some (some (dataAddr s b),
      { s with is_allocated := Function.update s.is_allocated b true,
               used_blocks := s.used_blocks + 1,
               nextF := Function.update
                 (Function.update s.nextF c (s.nextF b)) b none }) := by
  unfold memory_pool_alloc
  rw [if_neg hg, hfind]
  dsimp only
  rw [if_neg hnothead, hscan]
  rfl

theorem GoodPool_after_alloc {s s' : PoolState} {b : Nat} {FL FL' : List Nat}
    (hmem : ∀ i ∈ FL, i < s.total_blocks ∧ s.is_allocated i = false)
    (hcomp : ∀ i, i < s.total_blocks → s.is_allocated i = false → i ∈ FL)
    (hcnt : s.used_blocks = usedCount s)
    (hblt : b < s.total_blocks) (hbal : s.is_allocated b = false)
    (htot : s'.total_blocks = s.total_blocks)
    (hused : s'.used_blocks = s.used_blocks + 1)
    (halloc : s'.is_allocated = Function.update s.is_allocated b true)
    (hch' : isChain s'.nextF s'.free_list FL')
    (hnd' : FL'.Nodup)
    (hiff : ∀ i, i ∈ FL' ↔ i ∈ FL ∧ i ≠ b) :
    GoodPool s' := by
  refine ⟨FL', hch', hnd', ?_, ?_, ?_⟩
  · intro i hi
    obtain ⟨hiFL, hib⟩ := (hiff i).mp hi
    refine ⟨htot ▸ (hmem i hiFL).1, ?_⟩
    rw [halloc, Function.update_noteq hib]
    exact (hmem i hiFL).2
  · intro i hlt hal
    rw [htot] at hlt
    rw [halloc, Function.update_apply] at hal
    by_cases hib : i = b
    · rw [if_pos hib] at hal; cases hal
    · rw [if_neg hib] at hal
      exact (hiff i).mpr ⟨hcomp i hlt hal, hib⟩
  · rw [hused, hcnt]
    unfold usedCount
    rw [htot, halloc]
    exact (card_filter_update_true hblt hbal).symm

theorem alloc_GoodPool {s : PoolState} {sz : Nat} {r : Option Nat} {s' : PoolState}
    (hg : GoodPool s) (h : memory_pool_alloc s sz = some (r, s')) : GoodPool s' := by
  obtain ⟨FL, hch, hnd, hmem, hcomp, hcnt⟩ := hg
  by_cases hguard : sz = 0 ∨ s.block_size < sz
  · rw [alloc_guard hguard] at h
    simp only [Option.some.injEq, Prod.mk.injEq] at h
    obtain ⟨-, rfl⟩ := h
    exact ⟨FL, hch, hnd, hmem, hcomp, hcnt⟩
  · have hlen : FL.length ≤ s.total_blocks :=
      length_le_of_nodup_lt hnd (fun i hi => (hmem i hi).1)
    have hchain : chainOf s s.free_list = some FL := isChain_chain hch (by omega)
    obtain ⟨hfind, hbf⟩ := find_free_block_bestfit (r := sz) hchain
    cases hfold : FL.foldl (ffbStep s sz) none with
    | none =>
      rw [hfold] at hfind
      rw [alloc_nofree hguard hfind] at h
      simp only [Option.some.injEq, Prod.mk.injEq] at h
      obtain ⟨-, rfl⟩ := h
      exact ⟨FL, hch, hnd, hmem, hcomp, hcnt⟩
    | some b =>
      rw [hfold] at hfind hbf
      obtain ⟨A, B, hdec, hQ, -, -⟩ := hbf
      have hbFL : b ∈ FL := by rw [hdec]; simp
      obtain ⟨hblt, hbal⟩ := hmem b hbFL
      by_cases hhead : s.free_list = some b
      · rw [alloc_head_state hguard hfind hhead] at h
        simp only [Option.some.injEq, Prod.mk.injEq] at h
        obtain ⟨-, rfl⟩ := h
        rw [hhead] at hch
        obtain ⟨FL', hFLeq, htail⟩ := isChain_cons_inv hch
        have hbtail : b ∉ FL' := by
          rw [hFLeq] at hnd
          exact (List.nodup_cons.mp hnd).1
        refine GoodPool_after_alloc hmem hcomp hcnt hblt hbal rfl rfl rfl
          (isChain_update htail hbtail) ?_ ?_
        · rw [hFLeq] at hnd
          exact (List.nodup_cons.mp hnd).2
        · intro i
          rw [hFLeq]
          constructor
          · intro hi
            exact ⟨List.mem_cons_of_mem _ hi, fun he => hbtail (he ▸ hi)⟩
          · rintro ⟨hi, hib⟩
            rcases List.mem_cons.mp hi with he | hi
            · exact absurd he hib
            · exact hi
      · have hAne : A ≠ [] := by
          intro hA0
          rw [hA0, List.nil_append] at hdec
          rw [hdec] at hch
          exact hhead (isChain_cons_start hch).1
        rcases A.eq_nil_or_concat' with hA0 | ⟨A', cp, rfl⟩
        · exact absurd hA0 hAne
        have hdec2 : FL = A' ++ cp :: b :: B := by rw [hdec]; simp
        have hch2 : isChain s.nextF s.free_list (A' ++ cp :: b :: B) := hdec2 ▸ hch
        have hnd2 : (A' ++ cp :: b :: B).Nodup := hdec2 ▸ hnd
        have hlen2 : (A' ++ cp :: b :: B).length ≤ s.total_blocks := by
          rw [← hdec2]; exact hlen
        have hscan : unlinkScan s.nextF b (s.total_blocks + 1) s.free_list
            = some (some cp) := by
          refine unlinkScan_finds A' hch2 hnd2 ?_
          have := hlen2
          simp only [List.length_append, List.length_cons] at this
          omega
        rw [alloc_mid_state hguard hfind hhead hscan] at h
        simp only [Option.some.injEq, Prod.mk.injEq] at h
        obtain ⟨-, rfl⟩ := h
        have hb_not : b ∉ A' ++ cp :: B := by
          have hnd3 : ((A' ++ [cp]) ++ b :: B).Nodup := by
            rw [← hdec]; exact hnd
          have hdisj := List.disjoint_of_nodup_append hnd3
          have hbB : b ∉ B := by
            have h4 : (b :: B).Nodup := (List.nodup_append.mp hnd3).2.1
            exact (List.nodup_cons.mp h4).1
          intro hmem'
          rcases List.mem_append.mp hmem' with h1 | h1
          · exact hdisj (List.mem_append_left [cp] h1) (List.mem_cons_self _ _)
          · rcases List.mem_cons.mp h1 with he | h1
            · exact hdisj (by rw [he]; simp) (List.mem_cons_self _ _)
            · exact hbB h1
        have hchain' : isChain
            (Function.update (Function.update s.nextF cp (s.nextF b)) b none)
            s.free_list (A' ++ cp :: B) :=
          isChain_update (isChain_unlink A' hch2 hnd2) hb_not
        have hnd'' : (A' ++ cp :: B).Nodup := by
          have hsub : List.Sublist (A' ++ cp :: B) (A' ++ cp :: b :: B) := by
            refine List.Sublist.append_left ?_ A'
            exact List.Sublist.cons₂ cp (List.sublist_cons_self b B)
          exact hnd2.sublist hsub
        refine GoodPool_after_alloc hmem hcomp hcnt hblt hbal rfl rfl rfl hchain' hnd'' ?_
        intro i
        constructor
        · intro hi
          constructor
          · rw [hdec2]
            rcases List.mem_append.mp hi with h1 | h1
            · exact List.mem_append_left _ h1
            · rcases List.mem_cons.mp h1 with he | h1
              · rw [he]; exact List.mem_append_right _ (List.mem_cons_self _ _)
              · exact List.mem_append_right _
                  (List.mem_cons_of_mem _ (List.mem_cons_of_mem _ h1))
          · intro he
            exact hb_not (he ▸ hi)
        · rintro ⟨hi, hib⟩
          rw [hdec2] at hi
          rcases List.mem_append.mp hi with h1 | h1
          · exact List.mem_append_left _ h1
          · rcases List.mem_cons.mp h1 with he | h1
            · rw [he]; exact List.mem_append_right _ (List.mem_cons_self _ _)
            · rcases List.mem_cons.mp h1 with he | h1
              · exact absurd he hib
              · exact List.mem_append_right _ (List.mem_cons_of_mem _ h1)

theorem stride_pos (s : PoolState) : 0 < stride s := by
  unfold stride headerSize; omega

theorem addrToBlock_dataAddr {s : PoolState} {b : Nat} (hb : b < s.total_blocks) :
    addrToBlock s (s.memory_area + b * stride s) = some b := by
  unfold addrToBlock
  have h1 : s.memory_area + b * stride s - s.memory_area = b * stride s := by omega
  rw [if_pos]
  · rw [h1, Nat.mul_div_cancel b (stride_pos s)]
  · refine ⟨Nat.le_add_right _ _, ?_, ?_⟩
    · rw [h1]; exact Nat.mul_mod_left b (stride s)
    · rw [h1, Nat.mul_div_cancel b (stride_pos s)]; exact hb

theorem dataAddr_sub {s : PoolState} (b : Nat) :
    dataAddr s b - headerSize = s.memory_area + b * stride s := by
  unfold dataAddr blockAddr headerSize
  omega

theorem dataAddr_in_bounds {s : PoolState} {b : Nat} (hb : b < s.total_blocks)
    (hwf : WF s) :
    ¬ (dataAddr s b - headerSize < s.memory_area ∨
       s.memory_area + s.memory_size ≤ dataAddr s b - headerSize) := by
  rw [dataAddr_sub]
  have hmul : b * stride s < s.total_blocks * stride s :=
    (Nat.mul_lt_mul_right (stride_pos s)).mpr hb
  rw [hwf.2]
  omega

theorem dataAddr_ne_zero (s : PoolState) (b : Nat) : dataAddr s b ≠ 0 := by
  unfold dataAddr blockAddr headerSize
  omega

theorem free_dataAddr_alloc {s : PoolState} {b : Nat} (hb : b < s.total_blocks)
    (hwf : WF s) (hal : s.is_allocated b = true) :
    memory_pool_free (some s) (dataAddr s b)
      = some (MEMPOOL_SUCCESS, some (freeState s b)) := by
  simp only [memory_pool_free]
  rw [if_neg (dataAddr_ne_zero s b)]
  rw [if_neg (dataAddr_in_bounds hb hwf), dataAddr_sub, addrToBlock_dataAddr hb]
  dsimp only
  rw [if_neg (by rw [hal]; intro hcon; cases hcon)]

theorem free_dataAddr_notalloc {s : PoolState} {b : Nat} (hb : b < s.total_blocks)
    (hwf : WF s) (hal : s.is_allocated b = false) :
    memory_pool_free (some s) (dataAddr s b)
      = some (MEMPOOL_CORRUPTED, some s) := by
  simp only [memory_pool_free]
  rw [if_neg (dataAddr_ne_zero s b)]
  rw [if_neg (dataAddr_in_bounds hb hwf), dataAddr_sub, addrToBlock_dataAddr hb]
  dsimp only
  rw [if_pos hal]

theorem GoodPool_freeState {s : PoolState} {b : Nat} (hg : GoodPool s)
    (hb : b < s.total_blocks) (hal : s.is_allocated b = true) :
    GoodPool (freeState s b) := by
  obtain ⟨FL, hch, hnd, hmem, hcomp, hcnt⟩ := hg
  have hbFL : b ∉ FL := by
    intro hm
    have := (hmem b hm).2
    rw [hal] at this
    cases this
  refine ⟨b :: FL, ?_, List.nodup_cons.mpr ⟨hbFL, hnd⟩, ?_, ?_, ?_⟩
  · refine isChain.cons ?_
    show isChain (Function.update s.nextF b s.free_list)
      (Function.update s.nextF b s.free_list b) FL
    rw [Function.update_same]
    exact isChain_update hch hbFL
  · intro i hi
    rcases List.mem_cons.mp hi with he | hi
    · subst he
      refine ⟨hb, ?_⟩
      show Function.update s.is_allocated i false i = false
      rw [Function.update_same]
    · have hib : i ≠ b := fun he => hbFL (he ▸ hi)
      refine ⟨(hmem i hi).1, ?_⟩
      show Function.update s.is_allocated b false i = false
      rw [Function.update_noteq hib]
      exact (hmem i hi).2
  · intro i hlt hal'
    by_cases hib : i = b
    · rw [hib]; exact List.mem_cons_self _ _
    · have : s.is_allocated i = false := by
        have h2 : Function.update s.is_allocated b false i = false := hal'
        rwa [Function.update_noteq hib] at h2
      exact List.mem_cons_of_mem _ (hcomp i hlt this)
  · have h2 : usedCount (freeState s b)
        = ((Finset.range s.total_blocks).filter
            (fun i => Function.update s.is_allocated b false i = true)).card := rfl
    have h3 := card_filter_update_false (n := s.total_blocks) hb hal
    have h4 : (freeState s b).used_blocks = s.used_blocks - 1 := rfl
    have h5 : usedCount s
        = ((Finset.range s.total_blocks).filter (fun i => s.is_allocated i = true)).card := rfl
    omega

theorem free_inv {s : PoolState} {ptr : Nat} {e : MemoryPoolError} {s' : PoolState}
    (hwf : WF s) (h : memory_pool_free (some s) ptr = some (e, some s')) :
    (s' = s ∧ e ≠ MEMPOOL_SUCCESS) ∨ ∃ b, b < s.total_blocks ∧ s.is_allocated b = true ∧
      e = MEMPOOL_SUCCESS ∧ ptr = dataAddr s b ∧ s' = freeState s b := by
  simp only [memory_pool_free] at h
  by_cases h0 : ptr = 0
  · rw [if_pos h0] at h
    simp only [Option.some.injEq, Prod.mk.injEq, Option.some.injEq] at h
    exact Or.inl ⟨h.2.symm, by rw [← h.1]; intro hc; cases hc⟩
  · rw [if_neg h0] at h
    by_cases hbnd : ptr - headerSize < s.memory_area ∨
        s.memory_area + s.memory_size ≤ ptr - headerSize
    · rw [if_pos hbnd] at h
      simp only [Option.some.injEq, Prod.mk.injEq, Option.some.injEq] at h
      exact Or.inl ⟨h.2.symm, by rw [← h.1]; intro hc; cases hc⟩
    · rw [if_neg hbnd] at h
      cases haddr : addrToBlock s (ptr - headerSize) with
      | none => rw [haddr] at h; cases h
      | some b =>
        rw [haddr] at h
        dsimp only at h
        have hblt : b < s.total_blocks := by
          unfold addrToBlock at haddr
          by_cases hcond : s.memory_area ≤ ptr - headerSize ∧
              (ptr - headerSize - s.memory_area) % stride s = 0 ∧
              (ptr - headerSize - s.memory_area) / stride s < s.total_blocks
          · rw [if_pos hcond] at haddr
            injection haddr with haddr
            rw [← haddr]
            exact hcond.2.2
          · rw [if_neg hcond] at haddr; cases haddr
        by_cases hal : s.is_allocated b = false
        · rw [if_pos hal] at h
          simp only [Option.some.injEq, Prod.mk.injEq, Option.some.injEq] at h
          exact Or.inl ⟨h.2.symm, by rw [← h.1]; intro hc; cases hc⟩
        · rw [if_neg hal] at h
          simp only [Option.some.injEq, Prod.mk.injEq, Option.some.injEq] at h
          have htrue : s.is_allocated b = true := by
            cases hx : s.is_allocated b
            · exact absurd hx hal
            · rfl
          refine Or.inr ⟨b, hblt, htrue, h.1.symm, ?_, h.2.symm⟩
          -- ptr = dataAddr s b
          unfold addrToBlock at haddr
          by_cases hcond : s.memory_area ≤ ptr - headerSize ∧
              (ptr - headerSize - s.memory_area) % stride s = 0 ∧
              (ptr - headerSize - s.memory_area) / stride s < s.total_blocks
          · rw [if_pos hcond] at haddr
            injection haddr with haddr
            obtain ⟨hle, hmod, -⟩ := hcond
            have hdiv : ptr - headerSize - s.memory_area = b * stride s := by
              rw [← haddr]
              exact (Nat.div_mul_cancel (Nat.dvd_of_mod_eq_zero hmod)).symm
            have hma := hwf.1
            have hge : headerSize ≤ ptr := by
              have hhs : 0 < headerSize := by unfold headerSize; omega
              by_contra hlt
              push_neg at hlt
              have hz : ptr - headerSize = 0 := by omega
              rw [hz] at hle
              omega
            unfold dataAddr blockAddr
            omega
          · rw [if_neg hcond] at haddr; cases haddr

theorem alloc_finddiv {s : PoolState} {sz : Nat}
    (hg : ¬ (sz = 0 ∨ s.block_size < sz))
    (hfind : find_free_block s sz = none) :
    memory_pool_alloc s sz = none := by
  unfold memory_pool_alloc
  rw [if_neg hg, hfind]

theorem alloc_scandiv {s : PoolState} {sz b : Nat}
    (hg : ¬ (sz = 0 ∨ s.block_size < sz))
    (hfind : find_free_block s sz = some (some b))
    (hnothead : s.free_list ≠ some b)
    (hscan : unlinkScan s.nextF b (s.total_blocks + 1) s.free_list = none) :
    memory_pool_alloc s sz = none := by
  unfold memory_pool_alloc
  rw [if_neg hg, hfind]
  dsimp only
  rw [if_neg hnothead, hscan]
  rfl

theorem alloc_scanmiss_state {s : PoolState} {sz b : Nat}
    (hg : ¬ (sz = 0 ∨ s.block_size < sz))
    (hfind : find_free_block s sz = some (some b))
    (hnothead : s.free_list ≠ some b)
    (hscan : unlinkScan s.nextF b (s.total_blocks + 1) s.free_list = some none) :
    memory_pool_alloc s sz = some (some (dataAddr s b),
      { s with is_allocated := Function.update s.is_allocated b true,
               used_blocks := s.used_blocks + 1,
               nextF := Function.update s.nextF b none }) := by
  unfold memory_pool_alloc
  rw [if_neg hg, hfind]
  dsimp only
  rw [if_neg hnothead, hscan]
  rfl

theorem alloc_WF {s : PoolState} {sz : Nat} {r : Option Nat} {s' : PoolState}
    (h : memory_pool_alloc s sz = some (r, s')) (hwf : WF s) : WF s' := by
  by_cases hg : sz = 0 ∨ s.block_size < sz
  · rw [alloc_guard hg] at h
    simp only [Option.some.injEq, Prod.mk.injEq] at h
    rw [← h.2]
    exact hwf
  · cases hfind : find_free_block s sz with
    | none => rw [alloc_finddiv hg hfind] at h; cases h
    | some ob =>
      cases ob with
      | none =>
        rw [alloc_nofree hg hfind] at h
        simp only [Option.some.injEq, Prod.mk.injEq] at h
        rw [← h.2]
        exact hwf
      | some b =>
        by_cases hhead : s.free_list = some b
        · rw [alloc_head_state hg hfind hhead] at h
          simp only [Option.some.injEq, Prod.mk.injEq] at h
          rw [← h.2]
          exact hwf
        · cases hscan : unlinkScan s.nextF b (s.total_blocks + 1) s.free_list with
          | none => rw [alloc_scandiv hg hfind hhead hscan] at h; cases h
          | some oc =>
            cases oc with
            | none =>
              rw [alloc_scanmiss_state hg hfind hhead hscan] at h
              simp only [Option.some.injEq, Prod.mk.injEq] at h
              rw [← h.2]
              exact hwf
            | some c =>
              rw [alloc_mid_state hg hfind hhead hscan] at h
              simp only [Option.some.injEq, Prod.mk.injEq] at h
              rw [← h.2]
              exact hwf

theorem WF_freeState {s : PoolState} (b : Nat) (h : WF s) : WF (freeState s b) := h

theorem free_GoodPool {s : PoolState} {ptr : Nat} {e : MemoryPoolError} {s' : PoolState}
    (hg : GoodPool s) (hwf : WF s)
    (h : memory_pool_free (some s) ptr = some (e, some s')) :
    GoodPool s' ∧ WF s' := by
  rcases free_inv hwf h with ⟨rfl, -⟩ | ⟨b, hblt, hal, -, -, rfl⟩
  · exact ⟨hg, hwf⟩
  · exact ⟨GoodPool_freeState hg hblt hal, WF_freeState b hwf⟩

theorem destroy_busy {s : PoolState} (h : 0 < s.used_blocks) :
    memory_pool_destroy (some s) = (MEMPOOL_CORRUPTED, some s) := by
  simp only [memory_pool_destroy]
  rw [if_pos h]

theorem destroy_idle {s : PoolState} (h : s.used_blocks = 0) :
    memory_pool_destroy (some s) = (MEMPOOL_SUCCESS, none) := by
  simp only [memory_pool_destroy]
  rw [if_neg (by omega)]

theorem fresh_of_create {bs nb : Nat} {s : PoolState}
    (h : memory_pool_create bs nb = some s) : FreshState nb 0 s := by
  obtain ⟨ht, hu, hbsz, -, -, hnb, -, hfl, -, hnx, hsf, hal⟩ := create_spec h
  refine ⟨ht, hu, Nat.zero_le nb, ?_, ?_, ?_, ?_⟩
  · rw [hfl, if_neg (by omega), Nat.sub_zero]
  · intro i hi
    exact hnx i (by omega)
  · intro i hi
    rw [hsf i hi, hbsz]
  · intro i hi
    rw [hal i hi]
    constructor
    · intro hc; cases hc
    · intro hc; omega

theorem fresh_alloc_step {n j sz : Nat} {s : PoolState}
    (hf : FreshState n j s) (hj : j < n) (h0 : 0 < sz) (hsz : sz ≤ s.block_size) :
    ∃ s', memory_pool_alloc s sz = some (some (dataAddr s (n - 1 - j)), s')
      ∧ FreshState n (j + 1) s' ∧ s'.block_size = s.block_size := by
  obtain ⟨htot, hused, hjle, hfl, hnx, hsf, hia⟩ := hf
  have hguard : ¬ (sz = 0 ∨ s.block_size < sz) := by omega
  have hblt : n - 1 - j < n := by omega
  have hbltj : n - 1 - j < n - j := by omega
  have hfl' : s.free_list = some (n - 1 - j) := by
    rw [hfl, if_neg (by omega)]
  have halb : s.is_allocated (n - 1 - j) = false := by
    cases hx : s.is_allocated (n - 1 - j) with
    | false => rfl
    | true => exact absurd ((hia _ hblt).mp hx) (by omega)
  have hL : (List.range (n - j)).reverse
      = (n - 1 - j) :: (List.range (n - 1 - j)).reverse := by
    have he : n - j = (n - 1 - j) + 1 := by omega
    rw [he, List.range_succ]
    simp
  have hch : isChain s.nextF s.free_list ((List.range (n - j)).reverse) := by
    have := isChain_revRange (n - j) hnx
    rwa [if_neg (by omega), show n - j - 1 = n - 1 - j by omega, ← hfl'] at this
  have hchain : chainOf s s.free_list = some ((List.range (n - j)).reverse) := by
    refine isChain_chain hch ?_
    rw [List.length_reverse, List.length_range, htot]
    omega
  have hfold : ((List.range (n - j)).reverse).foldl (ffbStep s sz) none
      = some (n - 1 - j) := by
    rw [hL, List.foldl_cons,
      ffbStep_qual_none ⟨by rw [hsf _ hblt]; exact hsz, halb⟩]
    refine foldl_ffb_stay ?_
    intro c hc
    rw [List.mem_reverse, List.mem_range] at hc
    rw [hsf c (by omega), hsf _ hblt]
    omega
  have hfind : find_free_block s sz = some (some (n - 1 - j)) := by
    have := (find_free_block_bestfit (r := sz) hchain).1
    rwa [hfold] at this
  refine ⟨_, alloc_head_state hguard hfind hfl', ?_, rfl⟩
  refine ⟨htot, by rw [hused], by omega, ?_, ?_, ?_, ?_⟩
  · show s.nextF (n - 1 - j) = _
    rw [hnx _ hbltj]
    by_cases hjn : j + 1 = n
    · rw [if_pos (by omega), if_pos hjn]
    · rw [if_neg (by omega), if_neg hjn,
        show n - 1 - j - 1 = n - 1 - (j + 1) from by omega]
  · intro i hi
    show Function.update s.nextF (n - 1 - j) none i = _
    rw [Function.update_noteq (by omega), hnx i (by omega)]
  · intro i hi
    show s.sizeF i = s.block_size
    exact hsf i hi
  · intro i hi
    show Function.update s.is_allocated (n - 1 - j) true i = true ↔ n - (j + 1) ≤ i
    rw [Function.update_apply]
    by_cases hib : i = n - 1 - j
    · rw [if_pos hib]
      constructor
      · intro _; omega
      · intro _; rfl
    · rw [if_neg hib, hia i hi]
      constructor
      · intro hle; omega
      · intro hle; omega

theorem allocSeq_fresh {n sz : Nat} (h0 : 0 < sz) :
    ∀ (m j : Nat) (s : PoolState), FreshState n j s → j + m = n → sz ≤ s.block_size →
    ∃ ps s1, allocSeq sz m s = some (ps, s1) ∧ FreshState n n s1 ∧
      ps.length = m ∧ (∀ p ∈ ps, p ≠ 0) ∧ s1.block_size = s.block_size := by
  intro m
  induction m with
  | zero =>
    intro j s hf hjm hsz
    have hjn : j = n := by omega
    rw [hjn] at hf
    exact ⟨[], s, rfl, hf, rfl, fun p hp => absurd hp (List.not_mem_nil p), rfl⟩
  | succ m ih =>
    intro j s hf hjm hsz
    obtain ⟨s', halloc, hf', hbs⟩ := fresh_alloc_step hf (by omega) h0 hsz
    obtain ⟨ps, s1, hseq, hff, hlen, hnz, hbs1⟩ :=
      ih (j + 1) s' hf' (by omega) (by rw [hbs]; exact hsz)
    refine ⟨dataAddr s (n - 1 - j) :: ps, s1, ?_, hff, by simp [hlen], ?_, by rw [hbs1, hbs]⟩
    · simp only [allocSeq]
      rw [halloc]
      dsimp only
      rw [hseq]
      rfl
    · intro p hp
      rcases List.mem_cons.mp hp with rfl | hp
      · exact dataAddr_ne_zero s _
      · exact hnz p hp

theorem fresh_full_alloc {n sz : Nat} {s : PoolState}
    (hf : FreshState n n s) (h0 : 0 < sz) (hsz : sz ≤ s.block_size) :
    memory_pool_alloc s sz = some (none, s) := by
  obtain ⟨-, -, -, hfl, -, -, -⟩ := hf
  rw [if_pos rfl] at hfl
  have hfind : find_free_block s sz = some none := by
    unfold find_free_block chainOf
    rw [hfl]
    rfl
  exact alloc_nofree (by omega) hfind

theorem dataAddr_freeState (s : PoolState) (b : Nat) :
    dataAddr (freeState s b) = dataAddr s := rfl

theorem freeSeq_all :
    ∀ (L : List Nat) (s : PoolState), GoodPool s → WF s → L.Nodup →
    (∀ b ∈ L, b < s.total_blocks ∧ s.is_allocated b = true) →
    ∃ s', freeSeq s (L.map (dataAddr s)) = some s' ∧ GoodPool s' ∧ WF s' ∧
      s'.total_blocks = s.total_blocks ∧
      (∀ i, s'.is_allocated i = true ↔ s.is_allocated i = true ∧ i ∉ L) := by
  intro L
  induction L with
  | nil =>
    intro s hg hwf _ _
    exact ⟨s, rfl, hg, hwf, rfl, by intro i; simp⟩
  | cons b L' ih =>
    intro s hg hwf hnd hmem
    obtain ⟨hblt, hbal⟩ := hmem b (List.mem_cons_self _ _)
    have hbL' : b ∉ L' := (List.nodup_cons.mp hnd).1
    have hfree := free_dataAddr_alloc hblt hwf hbal
    have hmem' : ∀ b' ∈ L', b' < (freeState s b).total_blocks ∧
        (freeState s b).is_allocated b' = true := by
      intro b' hb'
      have hne : b' ≠ b := fun he => hbL' (he ▸ hb')
      refine ⟨(hmem b' (List.mem_cons_of_mem _ hb')).1, ?_⟩
      show Function.update s.is_allocated b false b' = true
      rw [Function.update_noteq hne]
      exact (hmem b' (List.mem_cons_of_mem _ hb')).2
    obtain ⟨s', hseq, hg', hwf', htot', hiff⟩ :=
      ih (freeState s b) (GoodPool_freeState hg hblt hbal) (WF_freeState b hwf)
        (List.nodup_cons.mp hnd).2 hmem'
    refine ⟨s', ?_, hg', hwf', htot', ?_⟩
    · simp only [List.map_cons, freeSeq]
      rw [hfree]
      rw [dataAddr_freeState] at hseq
      exact hseq
    · intro i
      rw [hiff i]
      have hup : (freeState s b).is_allocated i = Function.update s.is_allocated b false i := rfl
      rw [hup, Function.update_apply]
      by_cases hib : i = b
      · rw [if_pos hib]
        simp [hib]
      · rw [if_neg hib]
        simp only [List.mem_cons]
        constructor
        · rintro ⟨h1, h2⟩
          exact ⟨h1, fun hc => hc.elim (fun he => hib he) h2⟩
        · rintro ⟨h1, h2⟩
          exact ⟨h1, fun hc => h2 (Or.inr hc)⟩

theorem goodPool_cstate1 : GoodPool cstate1 := by
  refine ⟨[], isChain.nil, List.nodup_nil, ?_, ?_, ?_⟩
  · intro i hi
    exact absurd hi (List.not_mem_nil i)
  · intro i hi hal
    have hi0 : i = 0 := by
      have : i < 1 := hi
      omega
    rw [hi0] at hal
    exact absurd hal (by decide)
  · decide

theorem wf_cstate1 : WF cstate1 := ⟨by decide, by decide⟩

/-- C1: the claim asserts that for any sequence of alloc-then-free pairs on a
pool with at least one block, `validate` succeeds after each individual alloc
or free step.  The code violates this: on the pool `create(8, 2)`, the first
(successful) `alloc` writes `block->next = NULL` into the shared `next` field
of the block that heads both the `first_block` chain and the free list,
truncating the `first_block` chain, so the `validate` that follows the alloc
step counts 1 block instead of 2 and reports `MEMPOOL_CORRUPTED`.  The
`usage()` round-trip half of the claim does hold (the trailing conjuncts show
usage returning to 0 after the pair), which isolates the divergence to the
validate-after-alloc conjunct. -/
theorem C1_validate_corrupted_after_alloc :
    ∃ s p s', memory_pool_create 8 2 = some s ∧
      s.total_blocks = 2 ∧
      memory_pool_get_usage (some s) = 0 ∧
      memory_pool_alloc s 8 = some (some p, s') ∧
      memory_pool_validate (some s') = some MEMPOOL_CORRUPTED ∧
      ∃ s'', memory_pool_free (some s') p = some (MEMPOOL_SUCCESS, some s'') ∧
        memory_pool_get_usage (some s'') = 0 ∧
        memory_pool_validate (some s'') = some MEMPOOL_SUCCESS := by
  refine ⟨_, _, _, rfl, rfl, rfl, rfl, rfl, _, rfl, rfl, rfl⟩

/-- C2: for every `(block_size, num_blocks)` with both positive, `create`
returns a pool on which `validate` immediately succeeds, `usage()` is 0 and
`capacity()` is `num_blocks`; and `create` with either argument zero returns
`NULL`.  (The arena `malloc` is modelled as succeeding, matching the claim's
"where the arena reservation succeeds" proviso.) -/
theorem C2_create_validate :
    (∀ bs nb : Nat, 0 < bs → 0 < nb → ∃ s, memory_pool_create bs nb = some s ∧
      memory_pool_validate (some s) = some MEMPOOL_SUCCESS ∧
      memory_pool_get_usage (some s) = 0 ∧
      memory_pool_get_capacity (some s) = nb) ∧
    (∀ bs nb : Nat, bs = 0 ∨ nb = 0 → memory_pool_create bs nb = none) := by
  constructor
  · intro bs nb hbs hnb
    obtain ⟨s, hs⟩ : ∃ s, memory_pool_create bs nb = some s := by
      unfold memory_pool_create
      rw [if_neg (by omega)]
      exact ⟨_, rfl⟩
    obtain ⟨ht, hu, hbsz, -, hms, -, -, -, hfb, hnx, -, hal⟩ := create_spec hs
    have hch : isChain s.nextF s.first_block ((List.range nb).reverse) := by
      have := isChain_revRange (f := s.nextF) nb hnx
      rwa [if_neg (by omega), ← hfb] at this
    have hms2 : s.memory_size = nb * stride s := by
      rw [hms]
      unfold stride
      rw [hbsz]
    have h1 : ((List.range nb).reverse).length ≤ s.total_blocks + 1 := by
      rw [List.length_reverse, List.length_range, ht]
      omega
    have h2 : ∀ i ∈ (List.range nb).reverse, blockInBounds s i = true := by
      intro i hi
      rw [List.mem_reverse, List.mem_range] at hi
      unfold blockInBounds
      have hlt : i * stride s < nb * stride s := (Nat.mul_lt_mul_right (stride_pos s)).mpr hi
      rw [hms2]
      exact decide_eq_true hlt
    have hwalk : validateWalk s (s.total_blocks + 1) s.first_block 0 0
        = some (if 0 + ((List.range nb).reverse).length = s.total_blocks ∧
              0 + (((List.range nb).reverse).filter (fun i => s.is_allocated i)).length
                = s.used_blocks
            then MEMPOOL_SUCCESS else MEMPOOL_CORRUPTED) :=
      validateWalk_spec hch h1 h2
    refine ⟨s, hs, ?_, ?_, ?_⟩
    · show validateWalk s (s.total_blocks + 1) s.first_block 0 0 = some MEMPOOL_SUCCESS
      rw [hwalk, if_pos]
      constructor
      · rw [List.length_reverse, List.length_range, ht]; omega
      · rw [hu]
        have hfil : (List.range nb).reverse.filter (fun i => s.is_allocated i) = [] := by
          rw [List.filter_eq_nil_iff]
          intro a ha
          rw [List.mem_reverse, List.mem_range] at ha
          rw [hal a ha]
          intro hc
          cases hc
        rw [hfil]
        rfl
    · show s.used_blocks = 0
      exact hu
    · show s.total_blocks = nb
      exact ht
  · intro bs nb h
    unfold memory_pool_create
    rw [if_pos h]

/-- C2 witness: instantiation at `create(8, 2)`. -/
theorem C2_create_validate_witness :
    ∃ s, memory_pool_create 8 2 = some s ∧
      memory_pool_validate (some s) = some MEMPOOL_SUCCESS ∧
      memory_pool_get_usage (some s) = 0 ∧
      memory_pool_get_capacity (some s) = 2 :=
  C2_create_validate.1 8 2 (by decide) (by decide)

/-- C6: `alloc` with a request of 0 or exceeding the pool's (aligned)
`block_size` returns `NULL` and leaves the pool state completely unchanged
(the returned state is the input state itself). -/
theorem C6_alloc_rejects_bad_size (s : PoolState) (sz : Nat)
    (h : sz = 0 ∨ s.block_size < sz) :
    memory_pool_alloc s sz = some (none, s) :=
  alloc_guard h

/-- C6 witness: a 9-byte request on the 8-byte-block pool `cstate1`. -/
theorem C6_alloc_rejects_bad_size_witness :
    memory_pool_alloc cstate1 9 = some (none, cstate1) :=
  C6_alloc_rejects_bad_size cstate1 9 (Or.inr (by decide))

/-- C8: `free` with a pointer whose recovered header (`ptr` minus the header
size) falls outside the arena returns `MEMPOOL_INVALID_PARAM` and returns the
state unchanged; a `NULL` pointer or a `NULL` pool likewise yields
`MEMPOOL_INVALID_PARAM` with no effect. -/
theorem C8_free_foreign_pointer :
    (∀ (s : PoolState) (ptr : Nat), ptr ≠ 0 →
      (ptr - headerSize < s.memory_area ∨
        s.memory_area + s.memory_size ≤ ptr - headerSize) →
      memory_pool_free (some s) ptr = some (MEMPOOL_INVALID_PARAM, some s)) ∧
    (∀ s : PoolState, memory_pool_free (some s) 0
      = some (MEMPOOL_INVALID_PARAM, some s)) ∧
    (∀ ptr : Nat, memory_pool_free none ptr = some (MEMPOOL_INVALID_PARAM, none)) := by
  refine ⟨?_, ?_, ?_⟩
  · intro s ptr h0 hbnd
    simp only [memory_pool_free]
    rw [if_neg h0, if_pos hbnd]
  · intro s
    simp only [memory_pool_free, if_true]
  · intro ptr
    rfl

/-- C8 witness: the foreign address 5000 on `cstate1` (arena is
`[1024, 1064)`). -/
theorem C8_free_foreign_pointer_witness :
    memory_pool_free (some cstate1) 5000 = some (MEMPOOL_INVALID_PARAM, some cstate1) :=
  C8_free_foreign_pointer.1 cstate1 5000 (by decide) (Or.inr (by decide))

/-- C4: freeing a currently-allocated data pointer (i.e. one previously
returned by `alloc` and not yet released) succeeds; an immediately repeated
`free` of the same pointer returns `MEMPOOL_CORRUPTED` and returns the very
same state (no mutation: usage and every block flag unchanged).  The first
call decrements `usage()` by one. -/
theorem C4_double_free (s : PoolState) (b : Nat)
    (hb : b < s.total_blocks) (hwf : WF s) (hal : s.is_allocated b = true) :
    ∃ s', memory_pool_free (some s) (dataAddr s b) = some (MEMPOOL_SUCCESS, some s') ∧
      memory_pool_free (some s') (dataAddr s b) = some (MEMPOOL_CORRUPTED, some s') ∧
      memory_pool_get_usage (some s') = s.used_blocks - 1 := by
  refine ⟨freeState s b, free_dataAddr_alloc hb hwf hal, ?_, rfl⟩
  have hal' : (freeState s b).is_allocated b = false := by
    show Function.update s.is_allocated b false b = false
    rw [Function.update_same]
  have h2 := free_dataAddr_notalloc (s := freeState s b) hb (WF_freeState b hwf) hal'
  rwa [dataAddr_freeState] at h2

/-- C4 witness: the allocated block 0 of the one-block pool `cstate1`. -/
theorem C4_double_free_witness :
    ∃ s', memory_pool_free (some cstate1) (dataAddr cstate1 0)
        = some (MEMPOOL_SUCCESS, some s') ∧
      memory_pool_free (some s') (dataAddr cstate1 0)
        = some (MEMPOOL_CORRUPTED, some s') ∧
      memory_pool_get_usage (some s') = cstate1.used_blocks - 1 :=
  C4_double_free cstate1 0 (by decide) wf_cstate1 (by decide)

/-- C5: `destroy` on a pool with outstanding allocations returns
`MEMPOOL_CORRUPTED` and returns the state unchanged; the pool stays usable:
freeing every outstanding allocation and then calling `destroy` succeeds
(releasing the pool, i.e. the handle becomes `NULL`).  `destroy(NULL)`
returns `MEMPOOL_INVALID_PARAM`. -/
theorem C5_destroy_outstanding :
    (∀ s : PoolState, GoodPool s → WF s → 0 < s.used_blocks →
      memory_pool_destroy (some s) = (MEMPOOL_CORRUPTED, some s) ∧
      ∃ s', freeSeq s ((allocIdx s).map (dataAddr s)) = some s' ∧
        memory_pool_destroy (some s') = (MEMPOOL_SUCCESS, none)) ∧
    memory_pool_destroy none = (MEMPOOL_INVALID_PARAM, none) := by
  constructor
  · intro s hg hwf hu
    refine ⟨destroy_busy hu, ?_⟩
    have hnd : (allocIdx s).Nodup := (List.nodup_range _).filter _
    have hmem : ∀ b ∈ allocIdx s, b < s.total_blocks ∧ s.is_allocated b = true := by
      intro b hb
      unfold allocIdx at hb
      rw [List.mem_filter, List.mem_range] at hb
      exact hb
    obtain ⟨s', hseq, hg', -, htot', hiff⟩ := freeSeq_all (allocIdx s) s hg hwf hnd hmem
    refine ⟨s', hseq, ?_⟩
    apply destroy_idle
    obtain ⟨FL', -, -, -, -, hcnt'⟩ := hg'
    rw [hcnt']
    unfold usedCount
    rw [Finset.card_eq_zero, Finset.filter_eq_empty_iff]
    intro i hi
    rw [Finset.mem_range, htot'] at hi
    intro htrue
    obtain ⟨h1, h2⟩ := (hiff i).mp htrue
    refine h2 ?_
    unfold allocIdx
    rw [List.mem_filter, List.mem_range]
    exact ⟨hi, h1⟩
  · rfl

/-- C5 witness: `cstate1` (one outstanding allocation). -/
theorem C5_destroy_outstanding_witness :
    memory_pool_destroy (some cstate1) = (MEMPOOL_CORRUPTED, some cstate1) ∧
    ∃ s', freeSeq cstate1 ((allocIdx cstate1).map (dataAddr cstate1)) = some s' ∧
      memory_pool_destroy (some s') = (MEMPOOL_SUCCESS, none) :=
  C5_destroy_outstanding.1 cstate1 goodPool_cstate1 wf_cstate1 (by decide)

/-- C9: the pool-consistency invariant — `used_blocks` equals the number of
blocks whose `is_allocated` flag is set, `used_blocks ≤ total_blocks`, and no
two distinct blocks (in particular no two simultaneously allocated blocks)
share a data address — is established by `create` and preserved by every
mutating public operation (`alloc`, `free`, and the failing `destroy`, the
only one that returns a pool; `validate` and the read accessors are
read-only by construction, returning no state).  `GoodPool`/`WF` is the
reachable-state invariant; its last conjunct plus `GoodPool_ClaimInv` yield
the claim's three properties after every operation. -/
theorem C9_counting_invariants :
    (∀ (bs nb : Nat) (s : PoolState), memory_pool_create bs nb = some s →
      GoodPool s ∧ WF s) ∧
    (∀ (s : PoolState) (sz : Nat) (r : Option Nat) (s' : PoolState),
      GoodPool s → WF s → memory_pool_alloc s sz = some (r, s') →
      GoodPool s' ∧ WF s') ∧
    (∀ (s : PoolState) (ptr : Nat) (e : MemoryPoolError) (s' : PoolState),
      GoodPool s → WF s → memory_pool_free (some s) ptr = some (e, some s') →
      GoodPool s' ∧ WF s') ∧
    (∀ (s : PoolState) (e : MemoryPoolError) (s' : PoolState),
      GoodPool s → WF s → memory_pool_destroy (some s) = (e, some s') →
      GoodPool s' ∧ WF s') ∧
    (∀ s : PoolState, GoodPool s → ClaimInv s) := by
  refine ⟨?_, ?_, ?_, ?_, ?_⟩
  · intro bs nb s h
    exact create_GoodPool h
  · intro s sz r s' hg hwf h
    exact ⟨alloc_GoodPool hg h, alloc_WF h hwf⟩
  · intro s ptr e s' hg hwf h
    exact free_GoodPool hg hwf h
  · intro s e s' hg hwf h
    by_cases hu : 0 < s.used_blocks
    · rw [destroy_busy hu] at h
      simp only [Prod.mk.injEq, Option.some.injEq] at h
      rw [← h.2]
      exact ⟨hg, hwf⟩
    · rw [destroy_idle (by omega)] at h
      simp only [Prod.mk.injEq] at h
      cases h.2
  · intro s hg
    exact GoodPool_ClaimInv hg

/-- C9 witness: the invariant holds concretely for the pool `create(8, 2)`. -/
theorem C9_counting_invariants_witness :
    ∃ s, memory_pool_create 8 2 = some s ∧ ClaimInv s := by
  obtain ⟨hg, -⟩ := C9_counting_invariants.1 8 2 _ rfl
  exact ⟨_, rfl, C9_counting_invariants.2.2.2.2 _ hg⟩

/-- C3: on a freshly created pool with `k` blocks, any fixed valid request
size in `(0, block_size]` can be allocated `k` times in a row, each call
returning a non-null pointer; the `(k+1)`th call returns `NULL` and returns
the state unchanged (same state value), leaving `used_blocks = k`. -/
theorem C3_exhaustion (bs k sz : Nat) (s : PoolState)
    (hc : memory_pool_create bs k = some s) (h0 : 0 < sz) (hsz : sz ≤ s.block_size) :
    ∃ ps s1, allocSeq sz k s = some (ps, s1) ∧ ps.length = k ∧
      (∀ p ∈ ps, p ≠ 0) ∧
      memory_pool_alloc s1 sz = some (none, s1) ∧ s1.used_blocks = k := by
  have hf := fresh_of_create hc
  obtain ⟨ps, s1, hseq, hff, hlen, hnz, hbs⟩ := allocSeq_fresh h0 k 0 s hf (by omega) hsz
  refine ⟨ps, s1, hseq, hlen, hnz, ?_, hff.2.1⟩
  exact fresh_full_alloc hff h0 (by rw [hbs]; exact hsz)

/-- C3 witness: `create(8, 2)` with request size 8. -/
theorem C3_exhaustion_witness :
    ∃ s, memory_pool_create 8 2 = some s ∧
      ∃ ps s1, allocSeq 8 2 s = some (ps, s1) ∧ ps.length = 2 ∧
        (∀ p ∈ ps, p ≠ 0) ∧
        memory_pool_alloc s1 8 = some (none, s1) ∧ s1.used_blocks = 2 :=
  ⟨_, rfl, C3_exhaustion 8 2 8 _ rfl (by decide) (by decide)⟩

theorem alloc_some_inv {s : PoolState} {sz p : Nat} {s' : PoolState}
    (h : memory_pool_alloc s sz = some (some p, s')) :
    ∃ b, find_free_block s sz = some (some b) ∧ p = dataAddr s b := by
  by_cases hg : sz = 0 ∨ s.block_size < sz
  · rw [alloc_guard hg] at h
    simp at h
  · cases hfind : find_free_block s sz with
    | none => rw [alloc_finddiv hg hfind] at h; cases h
    | some ob =>
      cases ob with
      | none =>
        rw [alloc_nofree hg hfind] at h
        simp at h
      | some b =>
        refine ⟨b, rfl, ?_⟩
        by_cases hhead : s.free_list = some b
        · rw [alloc_head_state hg hfind hhead] at h
          simp only [Option.some.injEq, Prod.mk.injEq] at h
          exact h.1.symm
        · cases hscan : unlinkScan s.nextF b (s.total_blocks + 1) s.free_list with
          | none => rw [alloc_scandiv hg hfind hhead hscan] at h; cases h
          | some oc =>
            cases oc with
            | none =>
              rw [alloc_scanmiss_state hg hfind hhead hscan] at h
              simp only [Option.some.injEq, Prod.mk.injEq] at h
              exact h.1.symm
            | some c =>
              rw [alloc_mid_state hg hfind hhead hscan] at h
              simp only [Option.some.injEq, Prod.mk.injEq] at h
              exact h.1.symm

theorem bestfit_spec {s : PoolState} {r : Nat} {FL : List Nat} {res : Option Nat}
    (hfree : ∀ i ∈ FL, s.is_allocated i = false)
    (h : IsBestFit s r FL res) : SpecBestFit s r FL res := by
  cases res with
  | none =>
    intro c hc hle
    exact h c hc ⟨hle, hfree c hc⟩
  | some b =>
    obtain ⟨A, B, hdec, hQ, hmin, hstrict⟩ := h
    refine ⟨A, B, hdec, hQ.1, ?_, ?_⟩
    · intro c hc hle
      exact hmin c hc ⟨hle, hfree c hc⟩
    · intro c hc hle
      refine hstrict c hc ⟨hle, hfree c ?_⟩
      rw [hdec]
      exact List.mem_append_left _ hc

/-- C7: a successful `alloc` hands out the data pointer of the block selected
by the best-fit policy over the free-list scan order: among the free-list
blocks of capacity at least the request, one of smallest capacity, and on
ties the first such block in scan order (`SpecBestFit`, worded from the
spec).  `FL` is the free-list scan order; its blocks carry a cleared
`is_allocated` flag (true of every reachable pool, cf. `GoodPool`). -/
theorem C7_best_fit_selection (s : PoolState) (sz p : Nat) (s' : PoolState)
    (FL : List Nat)
    (hch : chainOf s s.free_list = some FL)
    (hfree : ∀ i ∈ FL, s.is_allocated i = false)
    (h : memory_pool_alloc s sz = some (some p, s')) :
    ∃ b, p = dataAddr s b ∧ SpecBestFit s sz FL (some b) := by
  obtain ⟨b, hfind, hp⟩ := alloc_some_inv h
  obtain ⟨hfind2, hbf⟩ := find_free_block_bestfit (r := sz) hch
  rw [hfind2] at hfind
  injection hfind with hfind
  refine ⟨b, hp, ?_⟩
  have hbs := bestfit_spec hfree hbf
  rwa [hfind] at hbs

/-- C7 witness: on the heterogeneous pool `cstBF` (capacities 24, 8, 16 in
scan order), a request of 5 selects block 1, the smallest fitting one. -/
theorem C7_best_fit_selection_witness :
    ∃ b, dataAddr cstBF 1 = dataAddr cstBF b ∧ SpecBestFit cstBF 5 [2, 1, 0] (some b) := by
  have h : memory_pool_alloc cstBF 5
      = some (some (dataAddr cstBF 1), ((memory_pool_alloc cstBF 5).get rfl).2) := rfl
  exact C7_best_fit_selection cstBF 5 (dataAddr cstBF 1) _ [2, 1, 0] rfl (by decide) h

/-- C10: in a pool whose blocks all share the pool capacity (every pool made
by `create`), a successful `free(ptr)` followed immediately by `alloc(sz)`
with `0 < sz ≤ block_size` returns exactly `ptr` again: `free` pushes the
block to the free-list head and the strict-inequality tie-break of the
best-fit scan keeps that first qualifying block. -/
theorem C10_realloc_returns_freed_pointer (s : PoolState) (ptr sz : Nat)
    (s' : PoolState) (hg : GoodPool s) (hwf : WF s)
    (hsize : ∀ i, i < s.total_blocks → s.sizeF i = s.block_size)
    (hfree : memory_pool_free (some s) ptr = some (MEMPOOL_SUCCESS, some s'))
    (h0 : 0 < sz) (hsz : sz ≤ s.block_size) :
    ∃ s'', memory_pool_alloc s' sz = some (some ptr, s'') := by
  rcases free_inv hwf hfree with ⟨-, hne⟩ | ⟨b, hblt, hal, -, hptr, rfl⟩
  · exact absurd rfl hne
  · obtain ⟨FL, hch, hnd, hmem, hcomp, hcnt⟩ := hg
    have hbFL : b ∉ FL := by
      intro hm
      have := (hmem b hm).2
      rw [hal] at this
      cases this
    have hch' : isChain (freeState s b).nextF (freeState s b).free_list (b :: FL) := by
      refine isChain.cons ?_
      show isChain (Function.update s.nextF b s.free_list)
        (Function.update s.nextF b s.free_list b) FL
      rw [Function.update_same]
      exact isChain_update hch hbFL
    have hlen : (b :: FL).length ≤ s.total_blocks := by
      refine length_le_of_nodup_lt (List.nodup_cons.mpr ⟨hbFL, hnd⟩) ?_
      intro i hi
      rcases List.mem_cons.mp hi with rfl | hi
      · exact hblt
      · exact (hmem i hi).1
    have hchain : chainOf (freeState s b) (freeState s b).free_list = some (b :: FL) := by
      refine isChain_chain hch' ?_
      show (b :: FL).length ≤ s.total_blocks + 1
      omega
    have hq : sz ≤ (freeState s b).sizeF b ∧ (freeState s b).is_allocated b = false := by
      constructor
      · show sz ≤ s.sizeF b
        rw [hsize b hblt]
        exact hsz
      · show Function.update s.is_allocated b false b = false
        rw [Function.update_same]
    have hfold : (b :: FL).foldl (ffbStep (freeState s b) sz) none = some b := by
      rw [List.foldl_cons, ffbStep_qual_none hq]
      refine foldl_ffb_stay ?_
      intro c hc
      show ¬ s.sizeF c < s.sizeF b
      rw [hsize c (hmem c hc).1, hsize b hblt]
      omega
    have hfind : find_free_block (freeState s b) sz = some (some b) := by
      have := (find_free_block_bestfit (r := sz) hchain).1
      rwa [hfold] at this
    have hguard : ¬ (sz = 0 ∨ (freeState s b).block_size < sz) := by
      rw [show (freeState s b).block_size = s.block_size from rfl]
      omega
    have hhead : (freeState s b).free_list = some b := rfl
    have hres := alloc_head_state hguard hfind hhead
    rw [dataAddr_freeState, ← hptr] at hres
    exact ⟨_, hres⟩

/-- C10 witness: freeing and re-allocating block 0 of `cstate1`. -/
theorem C10_realloc_returns_freed_pointer_witness :
    ∃ s'', memory_pool_alloc (freeState cstate1 0) 8
      = some (some (dataAddr cstate1 0), s'') :=
  C10_realloc_returns_freed_pointer cstate1 (dataAddr cstate1 0) 8
    (freeState cstate1 0) goodPool_cstate1 wf_cstate1 (by decide)
    rfl (by decide) (by decide)
